import Mathlib

/-!
Verification of the fn_zip repository (sigurd4/fn_zip) against its
natural-language specification.

The development shallowly embeds the Rust sources:

* `src/zipped_fn.rs` — the `ZippedFn` combinator, its synchronous call
  forms, its asynchronous call forms, and the hand-rolled two-future
  `Join` with its `MaybeDone` per-side state machine;
* `src/join.rs` — the standalone `JoinedPair` future (identical logic);
* `src/zipped_fn_par.rs` — the thread-parallel variant and its errors;
* the external tuple concatenation / splitting facility
  (`tupleops` / `tuple_split` crates), modelled from the spec contract.

Futures are modelled as explicit state machines: a future with state
type `σ` and output type `α` is a step function `σ → σ ⊕ α`, where
`Sum.inl s` is "still pending with new state `s`" (Rust
`Poll::Pending`, the in-place mutation of the future made explicit) and
`Sum.inr v` is "ready with value `v`" (Rust `Poll::Ready(v)`).
Rust panics (`unreachable!()`, `unwrap()` on `None`) are modelled by
`Option`: a result of `none` is a panic.
-/

namespace FnZip

/-! ## Tuple machinery

Modelled from the spec: the `tupleops` / `tuple_split` crates are
external dependencies whose implementation is not part of this
repository.  The spec (section 6) fixes their contract: a type-level
concatenation of two parameter-list shapes, plus runtime operations
`concatenate(left, right) -> combined` and
`split(combined) -> (left, right)` that preserve argument order and are
mutual exact inverses.  A parameter-list shape is a `List Type`; a
tuple over a shape is a heterogeneous list. -/

inductive HList : List Type → Type 1 where
  | nil : HList []
  | cons {T : Type} {Ts : List Type} : T → HList Ts → HList (T :: Ts)

def HList.head {T : Type} {Ts : List Type} : HList (T :: Ts) → T
  | .cons a _ => a

/-- Modelled from the spec: `tupleops` concatenation of two tuples,
left arguments first, preserving order. -/
def concatTuples {R : List Type} : {L : List Type} → HList L → HList R → HList (L ++ R)
  | [], .nil, r => r
  | _ :: _, .cons a l, r => .cons a (concatTuples l r)

/-- Modelled from the spec: `tuple_split::split_tuple_into`, splitting a
combined tuple at the statically determined boundary between the left
shape `L` and the right shape `R`. -/
def split_tuple_into : (L : List Type) → {R : List Type} → HList (L ++ R) → HList L × HList R
  | [], _, h => (.nil, h)
  | _ :: L2, _, .cons a h =>
      let p := split_tuple_into L2 h
      (.cons a p.1, p.2)

/-! ## The synchronous call forms of `ZippedFn` (`src/zipped_fn.rs`) -/

/-- The `ZippedFn` struct of `src/zipped_fn.rs`: the two zipped
callables.  The `PhantomData` marker field carries no data and is
omitted. -/
structure ZippedFn (LF RF : Type 1) : Type 1 where
  left : LF
  right : RF

/-- An effectful callable taking a tuple over shape `Ts` and producing
a `β`: side effects are modelled by threading a world state `W`.  This
embeds a Rust callable whose invocation may have observable effects. -/
def EffFn (W : Type 1) (Ts : List Type) (β : Type) : Type 1 :=
  HList Ts → W → β × W

/-- `FnOnce::call_once` for `ZippedFn`: split the combined arguments,
invoke the left callable, then the right one (Rust evaluates the pair
`(self.left.call_once(..), self.right.call_once(..))` left to right,
which the world-state threading makes explicit), and return the pair
of results. -/
def ZippedFn.call_once {W : Type 1} {β γ : Type} {L R : List Type}
    (zf : ZippedFn (EffFn W L β) (EffFn W R γ))
    (args : HList (L ++ R)) (w : W) : (β × γ) × W :=
  let p := split_tuple_into L args
  let lb := zf.left p.1 w
  let rc := zf.right p.2 lb.2
  ((lb.1, rc.1), rc.2)

/-- `FnMut::call_mut` for `ZippedFn`: same body as `call_once`, under a
mutable borrow in the source. -/
def ZippedFn.call_mut {W : Type 1} {β γ : Type} {L R : List Type}
    (zf : ZippedFn (EffFn W L β) (EffFn W R γ))
    (args : HList (L ++ R)) (w : W) : (β × γ) × W :=
  let p := split_tuple_into L args
  let lb := zf.left p.1 w
  let rc := zf.right p.2 lb.2
  ((lb.1, rc.1), rc.2)

/-- `Fn::call` for `ZippedFn`: same body as `call_once`, under a shared
borrow in the source. -/
def ZippedFn.call {W : Type 1} {β γ : Type} {L R : List Type}
    (zf : ZippedFn (EffFn W L β) (EffFn W R γ))
    (args : HList (L ++ R)) (w : W) : (β × γ) × W :=
  let p := split_tuple_into L args
  let lb := zf.left p.1 w
  let rc := zf.right p.2 lb.2
  ((lb.1, rc.1), rc.2)

/-- An observable invocation event: which side was invoked, and with
which sub-tuple. -/
inductive CallEvent (L R : List Type) : Type 1 where
  | leftCall : HList L → CallEvent L R
  | rightCall : HList R → CallEvent L R

/-- Instrument two pure callables so that each invocation appends an
event recording the side and the arguments it was invoked with. -/
def instrument {L R : List Type} {β γ : Type}
    (fp : HList L → β) (gp : HList R → γ) :
    ZippedFn (EffFn (List (CallEvent L R)) L β) (EffFn (List (CallEvent L R)) R γ) :=
  { left := fun a w => (fp a, w ++ [CallEvent.leftCall a]),
    right := fun a w => (gp a, w ++ [CallEvent.rightCall a]) }

/-- The spec's worked example: `sqrt` zipped with `(+ 1)`.  The source
example computes `sqrt` in `f64` at the input `4.0`, where the result
is exactly `2.0`; `Nat.sqrt` models that exact computation. -/
def sqrtPlusOne :
    ZippedFn (EffFn (List (CallEvent [Nat] [Nat])) [Nat] Nat)
             (EffFn (List (CallEvent [Nat] [Nat])) [Nat] Nat) :=
  { left := fun a w => (Nat.sqrt a.head, w),
    right := fun a w => (a.head + 1, w) }

/-! ## The `Join` future of `src/zipped_fn.rs` -/

namespace ZF

/-- `MaybeDone` from the private module of `src/zipped_fn.rs`:
per-side state of the join — still a future, done with an uncollected
value, or already taken. -/
inductive MaybeDone (σ α : Type) : Type where
  | future : σ → MaybeDone σ α
  | done : α → MaybeDone σ α
  | taken : MaybeDone σ α
deriving DecidableEq, Repr

/-- `MaybeDone::take_output`: on `Done`, replace the state with `Taken`
and return the value; otherwise return `None` and leave the state. -/
def MaybeDone.take_output {σ α : Type} : MaybeDone σ α → Option α × MaybeDone σ α
  | .done v => (some v, .taken)
  | s => (none, s)

/-- `MaybeDone`'s `Future::poll`: on `Future`, poll the inner future
(`ready!` propagates `Pending`, keeping the advanced inner state);
on completion store `Done(val)`; on `Done` do nothing; on `Taken` hit
`unreachable!()` (modelled as `none`).  The returned `Bool` is
`is_ready()` of the `Poll<()>` result. -/
def MaybeDone.poll {σ α : Type} (step : σ → σ ⊕ α) :
    MaybeDone σ α → Option (MaybeDone σ α × Bool)
  | .future f =>
      match step f with
      | Sum.inl f2 => some (.future f2, false)
      | Sum.inr v => some (.done v, true)
  | .done v => some (.done v, true)
  | .taken => none

/-- The `Join` struct of `src/zipped_fn.rs`: one `MaybeDone` per side. -/
structure Join (σL σR α β : Type) : Type where
  left : MaybeDone σL α
  right : MaybeDone σR β
deriving DecidableEq, Repr

/-- `Join`'s `Future::poll` from `src/zipped_fn.rs`:

`if !left.poll(cx).is_ready() || !right.poll(cx).is_ready() { return Pending }`
— note the short-circuiting `||`: when the left side's poll is not
ready, the right side is not polled at all in that step.  When both
report ready, both outputs are taken and unwrapped (`unwrap()` panics,
modelled as `none`).  The second component of the result is the
`Poll` output: `none` is `Pending`, `some (lv, rv)` is `Ready`. -/
def Join.poll {σL σR α β : Type} (stepL : σL → σL ⊕ α) (stepR : σR → σR ⊕ β)
    (j : Join σL σR α β) : Option (Join σL σR α β × Option (α × β)) :=
  match j.left.poll stepL with
  | none => none
  | some (l1, lready) =>
      if lready = false then
        some ({ left := l1, right := j.right }, none)
      else
        match j.right.poll stepR with
        | none => none
        | some (r1, rready) =>
            if rready = false then
              some ({ left := l1, right := r1 }, none)
            else
              match l1.take_output, r1.take_output with
              | (some lv, l2), (some rv, r2) =>
                  some ({ left := l2, right := r2 }, some (lv, rv))
              | _, _ => none

/-- Drive a `Join` for `n` consecutive poll steps, collecting the
`Poll` output of every step; `none` if any step panics. -/
def Join.drive {σL σR α β : Type} (stepL : σL → σL ⊕ α) (stepR : σR → σR ⊕ β) :
    Nat → Join σL σR α β → Option (Join σL σR α β × List (Option (α × β)))
  | 0, j => some (j, [])
  | n + 1, j =>
      match Join.poll stepL stepR j with
      | none => none
      | some (j1, out) =>
          match Join.drive stepL stepR n j1 with
          | none => none
          | some (j2, outs) => some (j2, out :: outs)

end ZF

/-- A future that completes with value `v` on its `n`-th poll: the
state is the number of remaining polls, counting the current one. -/
def countdownStep {α : Type} (v : α) (k : Nat) : Nat ⊕ α :=
  if k ≤ 1 then Sum.inr v else Sum.inl (k - 1)

/-! ## The asynchronous call forms of `ZippedFn` (`src/zipped_fn.rs`)

The children's asynchronous invocation forms are modelled as functions
from the argument tuple to a suspended future state (`σL`, `σR`); the
future's eventual output types `α`, `β` are parameters of the returned
`Join`. -/

/-- `AsyncFnOnce::async_call_once` for `ZippedFn`: split the combined
arguments and return a fresh `Join` wrapping the two children's own
suspended computations, each in the `Future` state; nothing is
polled. -/
def ZippedFn.async_call_once {σL σR α β : Type} {L R : List Type}
    (zf : ZippedFn (HList L → σL) (HList R → σR)) (args : HList (L ++ R)) :
    ZF.Join σL σR α β :=
  let p := split_tuple_into L args
  { left := .future (zf.left p.1), right := .future (zf.right p.2) }

/-- `AsyncFnMut::async_call_mut` for `ZippedFn`: same body as
`async_call_once`, with the children invoked through their own
mutate-and-repeat asynchronous form. -/
def ZippedFn.async_call_mut {σL σR α β : Type} {L R : List Type}
    (zf : ZippedFn (HList L → σL) (HList R → σR)) (args : HList (L ++ R)) :
    ZF.Join σL σR α β :=
  let p := split_tuple_into L args
  { left := .future (zf.left p.1), right := .future (zf.right p.2) }

/-- `AsyncFn::async_call` for `ZippedFn`: same body as
`async_call_once`, with the children invoked through their own
read-and-repeat asynchronous form. -/
def ZippedFn.async_call {σL σR α β : Type} {L R : List Type}
    (zf : ZippedFn (HList L → σL) (HList R → σR)) (args : HList (L ++ R)) :
    ZF.Join σL σR α β :=
  let p := split_tuple_into L args
  { left := .future (zf.left p.1), right := .future (zf.right p.2) }

/-! ## The `JoinedPair` future of `src/join.rs`

`src/join.rs` contains a second, standalone copy of the same
two-future join: its own `MaybeDone` enum and a `JoinedPair` struct
with the same `poll` body.  It is embedded separately so that the two
implementations can be compared. -/

namespace JoinRs

/-- `MaybeDone` from `src/join.rs`. -/
inductive MaybeDone (σ α : Type) : Type where
  | future : σ → MaybeDone σ α
  | done : α → MaybeDone σ α
  | taken : MaybeDone σ α
deriving DecidableEq, Repr

/-- `MaybeDone::take_output` from `src/join.rs`. -/
def MaybeDone.take_output {σ α : Type} : MaybeDone σ α → Option α × MaybeDone σ α
  | .done v => (some v, .taken)
  | s => (none, s)

/-- `MaybeDone`'s `Future::poll` from `src/join.rs` (same body as the
one in `src/zipped_fn.rs`). -/
def MaybeDone.poll {σ α : Type} (step : σ → σ ⊕ α) :
    MaybeDone σ α → Option (MaybeDone σ α × Bool)
  | .future f =>
      match step f with
      | Sum.inl f2 => some (.future f2, false)
      | Sum.inr v => some (.done v, true)
  | .done v => some (.done v, true)
  | .taken => none

/-- The `JoinedPair` struct of `src/join.rs`. -/
structure JoinedPair (σL σR α β : Type) : Type where
  left : MaybeDone σL α
  right : MaybeDone σR β
deriving DecidableEq, Repr

/-- `JoinedPair::new`: wrap both child futures, nothing polled. -/
def JoinedPair.new {σL σR α β : Type} (l : σL) (r : σR) : JoinedPair σL σR α β :=
  { left := .future l, right := .future r }

/-- `JoinedPair`'s `Future::poll` from `src/join.rs`: the same
short-circuiting body as `Join::poll` in `src/zipped_fn.rs`. -/
def JoinedPair.poll {σL σR α β : Type} (stepL : σL → σL ⊕ α) (stepR : σR → σR ⊕ β)
    (j : JoinedPair σL σR α β) : Option (JoinedPair σL σR α β × Option (α × β)) :=
  match j.left.poll stepL with
  | none => none
  | some (l1, lready) =>
      if lready = false then
        some ({ left := l1, right := j.right }, none)
      else
        match j.right.poll stepR with
        | none => none
        | some (r1, rready) =>
            if rready = false then
              some ({ left := l1, right := r1 }, none)
            else
              match l1.take_output, r1.take_output with
              | (some lv, l2), (some rv, r2) =>
                  some ({ left := l2, right := r2 }, some (lv, rv))
              | _, _ => none

/-- Drive a `JoinedPair` for `n` consecutive poll steps. -/
def JoinedPair.drive {σL σR α β : Type} (stepL : σL → σL ⊕ α) (stepR : σR → σR ⊕ β) :
    Nat → JoinedPair σL σR α β → Option (JoinedPair σL σR α β × List (Option (α × β)))
  | 0, j => some (j, [])
  | n + 1, j =>
      match JoinedPair.poll stepL stepR j with
      | none => none
      | some (j1, out) =>
          match JoinedPair.drive stepL stepR n j1 with
          | none => none
          | some (j2, outs) => some (j2, out :: outs)

end JoinRs

/-- The evident constructor-wise correspondence between the two
`MaybeDone` enums. -/
def mdToZF {σ α : Type} : JoinRs.MaybeDone σ α → ZF.MaybeDone σ α
  | .future f => .future f
  | .done v => .done v
  | .taken => .taken

/-- The corresponding map between the two join structs. -/
def jpToZF {σL σR α β : Type} (j : JoinRs.JoinedPair σL σR α β) : ZF.Join σL σR α β :=
  { left := mdToZF j.left, right := mdToZF j.right }

/-! ## Operation sequences on a `Join` (for the state-machine invariant)

The operations the join's state machine is subject to are per-instance
polls and per-side `take_output` calls.  Running a sequence of them
collects one observation per operation; a panic aborts the run. -/

/-- One operation on a join instance. -/
inductive JoinOp : Type where
  | pollStep
  | takeLeft
  | takeRight
deriving DecidableEq, Repr

/-- What one operation observes: the `Poll` output of a poll, or the
`Option` returned by a side's `take_output`. -/
inductive Obs (α β : Type) : Type where
  | polled : Option (α × β) → Obs α β
  | tookLeft : Option α → Obs α β
  | tookRight : Option β → Obs α β
deriving DecidableEq, Repr

/-- Apply one operation to a join instance. -/
def runOp {σL σR α β : Type} (stepL : σL → σL ⊕ α) (stepR : σR → σR ⊕ β) :
    JoinOp → ZF.Join σL σR α β → Option (ZF.Join σL σR α β × Obs α β)
  | .pollStep, j =>
      Option.map (fun p => (p.1, Obs.polled p.2)) (ZF.Join.poll stepL stepR j)
  | .takeLeft, j =>
      some ({ j with left := (ZF.MaybeDone.take_output j.left).2 },
            Obs.tookLeft (ZF.MaybeDone.take_output j.left).1)
  | .takeRight, j =>
      some ({ j with right := (ZF.MaybeDone.take_output j.right).2 },
            Obs.tookRight (ZF.MaybeDone.take_output j.right).1)

/-- Run a sequence of operations, collecting the observations;
`none` if any operation panics. -/
def runOps {σL σR α β : Type} (stepL : σL → σL ⊕ α) (stepR : σR → σR ⊕ β) :
    List JoinOp → ZF.Join σL σR α β → Option (ZF.Join σL σR α β × List (Obs α β))
  | [], j => some (j, [])
  | op :: ops, j =>
      match runOp stepL stepR op j with
      | none => none
      | some (j1, o) =>
          match runOps stepL stepR ops j1 with
          | none => none
          | some (j2, os) => some (j2, o :: os)

/-- Position of a side's state in the `Future → Done → Taken` order. -/
def ZF.MaybeDone.rank {σ α : Type} : ZF.MaybeDone σ α → Nat
  | .future _ => 0
  | .done _ => 1
  | .taken => 2

/-- How many more times the left value can ever be observed: `0` once
the left side is `Taken`, otherwise `1`. -/
def leftBudget {σL σR α β : Type} (j : ZF.Join σL σR α β) : Nat :=
  match j.left with
  | .taken => 0
  | _ => 1

/-- How many more times the right value can ever be observed. -/
def rightBudget {σL σR α β : Type} (j : ZF.Join σL σR α β) : Nat :=
  match j.right with
  | .taken => 0
  | _ => 1

/-- Whether an observation reveals the left side's value. -/
def Obs.leftCount {α β : Type} : Obs α β → Nat
  | .polled (some _) => 1
  | .tookLeft (some _) => 1
  | _ => 0

/-- Whether an observation reveals the right side's value. -/
def Obs.rightCount {α β : Type} : Obs α β → Nat
  | .polled (some _) => 1
  | .tookRight (some _) => 1
  | _ => 0

/-- Total number of observations of the left side's value in a run. -/
def obsLeftCount {α β : Type} (os : List (Obs α β)) : Nat :=
  (os.map Obs.leftCount).sum

/-- Total number of observations of the right side's value in a run. -/
def obsRightCount {α β : Type} (os : List (Obs α β)) : Nat :=
  (os.map Obs.rightCount).sum

/-! ## The thread-parallel variant (`src/zipped_fn_par.rs`) -/

/-- `ParError` from `src/zipped_fn_par.rs`: a worker failed to launch
(`std::io::Error` payload, abstracted as `εS`) or terminated
abnormally (panic payload, abstracted as `εJ`). -/
inductive ParError (εS εJ : Type) : Type where
  | SpawnThreadError : εS → ParError εS εJ
  | JoinThreadError : εJ → ParError εS εJ
deriving DecidableEq, Repr

/-- Thread lifecycle events, for stating that no thread is leaked. -/
inductive ThreadEvent : Type where
  | spawnedLeft
  | spawnedRight
  | joinedLeft
  | joinedRight
deriving DecidableEq, Repr

/-- The thread orchestration of `ZippedFnPar::call_once`
(`src/zipped_fn_par.rs` lines 111–124): inside `std::thread::scope`,
spawn left (`?` on failure, tag `false`), spawn right (tag `true`),
join left (tag `false`), join right (tag `true`).  The spawn outcomes
`sL`, `sR` and the thread run outcomes `jL`, `jR` are inputs.  The
event trace records spawns and joins; `std::thread::scope` is a
trusted external dependency whose documented behavior — every thread
spawned in the scope is joined before the scope returns, including on
the early exits taken through `?` — supplies the trailing join events
on the error paths. -/
def ZippedFnPar.call_once_flow {εS εJ α β : Type}
    (sL sR : Except εS Unit) (jL : Except εJ α) (jR : Except εJ β) :
    Except (Bool × ParError εS εJ) (α × β) × List ThreadEvent :=
  match sL with
  | .error e => (.error (false, .SpawnThreadError e), [])
  | .ok _ =>
      match sR with
      | .error e =>
          (.error (true, .SpawnThreadError e),
           [.spawnedLeft, .joinedLeft])
      | .ok _ =>
          match jL with
          | .error e =>
              (.error (false, .JoinThreadError e),
               [.spawnedLeft, .spawnedRight, .joinedLeft, .joinedRight])
          | .ok lv =>
              match jR with
              | .error e =>
                  (.error (true, .JoinThreadError e),
                   [.spawnedLeft, .spawnedRight, .joinedLeft, .joinedRight])
              | .ok rv =>
                  (.ok (lv, rv),
                   [.spawnedLeft, .spawnedRight, .joinedLeft, .joinedRight])

/-- `std::thread::Builder`, restricted to the two options this crate
sets: an optional thread name and an optional stack size. -/
structure Builder (Nm : Type) : Type where
  name : Option Nm
  stack_size : Option Nat
deriving DecidableEq, Repr

/-- `Builder::new()`: no name, default stack size. -/
def Builder.new {Nm : Type} : Builder Nm :=
  { name := none, stack_size := none }

/-- The per-side closure of `call_once`'s builder preparation
(`src/zipped_fn_par.rs` lines 99–108): `Option::take` moves the name
and the stack size out of their slots (leaving `None` behind) and, if
present, applies them to a fresh builder.  Returns the configured
builder and the slots as left behind. -/
def prepare_builder_once {Nm : Type} (cfg : Option Nm × Option Nat) :
    Builder Nm × (Option Nm × Option Nat) :=
  let b := Builder.new
  let b := match cfg.1 with
    | some n => { b with name := some n }
    | none => b
  let b := match cfg.2 with
    | some s => { b with stack_size := some s }
    | none => b
  (b, (none, none))

/-- The per-side closure of `call_mut`'s and `call`'s builder
preparation (`src/zipped_fn_par.rs` lines 144–153 and 189–198):
the options are read through `each_ref` and cloned; the slots are not
touched. -/
def prepare_builder_ref {Nm : Type} (cfg : Option Nm × Option Nat) : Builder Nm :=
  let b := Builder.new
  let b := match cfg.1 with
    | some n => { b with name := some n }
    | none => b
  match cfg.2 with
  | some s => { b with stack_size := some s }
  | none => b

/-- The `ZippedFnPar` struct of `src/zipped_fn_par.rs`: the zipped
callable pair plus per-side thread options. -/
structure ZippedFnPar (Z Nm : Type) : Type where
  zipped : Z
  thread_names : Option Nm × Option Nm
  thread_stack_sizes : Option Nat × Option Nat
deriving DecidableEq, Repr

/-- Builder preparation of `ZippedFnPar::call_once`: both sides use
the taking closure, so after it both option slots hold `None`. -/
def ZippedFnPar.builders_once {Z Nm : Type} (z : ZippedFnPar Z Nm) :
    (Builder Nm × Builder Nm) × ZippedFnPar Z Nm :=
  let pL := prepare_builder_once (z.thread_names.1, z.thread_stack_sizes.1)
  let pR := prepare_builder_once (z.thread_names.2, z.thread_stack_sizes.2)
  ((pL.1, pR.1),
   { z with thread_names := (pL.2.1, pR.2.1),
            thread_stack_sizes := (pL.2.2, pR.2.2) })

/-- Builder preparation of `ZippedFnPar::call_mut`: both sides use the
cloning closure; the struct is returned as the call leaves it. -/
def ZippedFnPar.builders_mut {Z Nm : Type} (z : ZippedFnPar Z Nm) :
    (Builder Nm × Builder Nm) × ZippedFnPar Z Nm :=
  ((prepare_builder_ref (z.thread_names.1, z.thread_stack_sizes.1),
    prepare_builder_ref (z.thread_names.2, z.thread_stack_sizes.2)), z)

/-- Builder preparation of `ZippedFnPar::call` (the `Fn` form): same
cloning closure as `call_mut`. -/
def ZippedFnPar.builders_call {Z Nm : Type} (z : ZippedFnPar Z Nm) :
    (Builder Nm × Builder Nm) × ZippedFnPar Z Nm :=
  ((prepare_builder_ref (z.thread_names.1, z.thread_stack_sizes.1),
    prepare_builder_ref (z.thread_names.2, z.thread_stack_sizes.2)), z)

/-! # Theorems -/

theorem split_tuple_into_concat {R : List Type} :
    ∀ {L : List Type} (l : HList L) (r : HList R),
      split_tuple_into L (concatTuples l r) = (l, r) := by
  intro L l
  induction l with
  | nil => intro r; rfl
  | cons a l ih =>
      intro r
      simp only [concatTuples, split_tuple_into, ih r]

theorem concat_split_tuple_into :
    ∀ (L : List Type) {R : List Type} (h : HList (L ++ R)),
      concatTuples (split_tuple_into L h).1 (split_tuple_into L h).2 = h := by
  intro L
  induction L with
  | nil => intro R h; rfl
  | cons T L2 ih =>
      intro R h
      cases h with
      | cons a h2 =>
          simp only [split_tuple_into, concatTuples, ih h2]

theorem take_output_some_eq_taken {σ α : Type} {s s2 : ZF.MaybeDone σ α} {v : α}
    (h : ZF.MaybeDone.take_output s = (some v, s2)) : s2 = ZF.MaybeDone.taken := by
  cases s with
  | future f => simp [ZF.MaybeDone.take_output] at h
  | done w =>
      simp only [ZF.MaybeDone.take_output, Prod.mk.injEq, Option.some.inj] at h
      exact h.2.symm
  | taken => simp [ZF.MaybeDone.take_output] at h

/-- C4: split and concatenate on argument tuples are mutual exact
inverses for every pair of shapes (hence for every supported arity up
to the configured maximum): splitting a concatenation returns exactly
the original left and right tuples, and concatenating the two halves
of a split reconstructs the combined tuple, so no argument is
duplicated, dropped, or reordered. -/
theorem split_concat_mutual_inverses :
    (∀ (L R : List Type) (l : HList L) (r : HList R),
        split_tuple_into L (concatTuples l r) = (l, r)) ∧
    (∀ (L R : List Type) (h : HList (L ++ R)),
        concatTuples (split_tuple_into L h).1 (split_tuple_into L h).2 = h) :=
  ⟨fun _L _R l r => split_tuple_into_concat l r,
   fun L _R h => concat_split_tuple_into L h⟩

/-- C3: each synchronous call form of `ZippedFn` splits the combined
arguments, invokes the left callable on the left sub-tuple and then
the right callable on the right sub-tuple — exactly one invocation
event per side, left before right in the event trace — and returns
exactly the pair of the two results; and the spec's worked example
(`sqrt` zipped with `(+ 1)`, called with `(4, 23)`) yields `(2, 24)`. -/
theorem zipped_call_left_then_right_pair :
    (∀ (L R : List Type) (β γ : Type) (fp : HList L → β) (gp : HList R → γ)
        (args : HList (L ++ R)) (tr : List (CallEvent L R)),
        ZippedFn.call_once (instrument fp gp) args tr
            = ((fp (split_tuple_into L args).1, gp (split_tuple_into L args).2),
               tr ++ [CallEvent.leftCall (split_tuple_into L args).1,
                      CallEvent.rightCall (split_tuple_into L args).2])
          ∧ ZippedFn.call_mut (instrument fp gp) args tr
            = ((fp (split_tuple_into L args).1, gp (split_tuple_into L args).2),
               tr ++ [CallEvent.leftCall (split_tuple_into L args).1,
                      CallEvent.rightCall (split_tuple_into L args).2])
          ∧ ZippedFn.call (instrument fp gp) args tr
            = ((fp (split_tuple_into L args).1, gp (split_tuple_into L args).2),
               tr ++ [CallEvent.leftCall (split_tuple_into L args).1,
                      CallEvent.rightCall (split_tuple_into L args).2])) ∧
    ZippedFn.call sqrtPlusOne (HList.cons 4 (HList.cons 23 HList.nil)) []
      = ((2, 24), []) := by
  constructor
  · intro L R β γ fp gp args tr
    refine ⟨?_, ?_, ?_⟩ <;>
      simp [ZippedFn.call_once, ZippedFn.call_mut, ZippedFn.call, instrument]
  · simp only [ZippedFn.call, sqrtPlusOne, split_tuple_into, HList.head]
    norm_num

/-- C7: each asynchronous call form of `ZippedFn` runs neither child:
it splits the arguments, obtains each child's suspended computation by
that child's own asynchronous invocation form, and returns a fresh
`Join` with both sides in the `Future` state wrapping exactly those
unpolled computations; no value is observable on either side of the
returned join (`take_output` yields `none` and leaves the state), so
the combinator itself has not driven it. -/
theorem async_forms_return_unpolled_join :
    ∀ (σL σR α β : Type) (L R : List Type)
      (zf : ZippedFn (HList L → σL) (HList R → σR)) (args : HList (L ++ R)),
      ZippedFn.async_call_once (α := α) (β := β) zf args
          = { left := .future (zf.left (split_tuple_into L args).1),
              right := .future (zf.right (split_tuple_into L args).2) }
        ∧ ZippedFn.async_call_mut (α := α) (β := β) zf args
          = { left := .future (zf.left (split_tuple_into L args).1),
              right := .future (zf.right (split_tuple_into L args).2) }
        ∧ ZippedFn.async_call (α := α) (β := β) zf args
          = { left := .future (zf.left (split_tuple_into L args).1),
              right := .future (zf.right (split_tuple_into L args).2) }
        ∧ (ZippedFn.async_call_once (α := α) (β := β) zf args).left.take_output
          = (none, .future (zf.left (split_tuple_into L args).1))
        ∧ (ZippedFn.async_call_once (α := α) (β := β) zf args).right.take_output
          = (none, .future (zf.right (split_tuple_into L args).2)) :=
  fun _σL _σR _α _β _L _R _zf _args => ⟨rfl, rfl, rfl, rfl, rfl⟩

/-- C1: the claim states that on every drive step of the async join the
right side is advanced regardless of the left side's outcome in that
step.  The code violates this: `Join::poll` uses the short-circuiting
`||`, so when the left side's poll returns `Pending` the right side is
not polled at all.  Concretely, with a left future needing 2 polls and
a right future needing 1 poll, the first drive step leaves the right
side's state untouched (`future 1` — had it been advanced it would be
`done 20`). -/
theorem join_poll_skips_right_when_left_pending :
    ZF.Join.poll (countdownStep 10) (countdownStep 20)
        ({ left := .future 2, right := .future 1 } : ZF.Join Nat Nat Nat Nat)
      = some ({ left := .future 1, right := .future 1 }, none) := by decide

/-- C2: the claim states the join reports ready after exactly
`max(nL, nR)` drive steps.  The code violates this: because the right
side is only polled once the left side is ready, with `nL = nR = 2` the
join is still `Pending` on step 2 (= `max(2, 2)`) and only reports
`Ready ((10, 20))` on step 3 (= `nL + nR - 1`). -/
theorem join_ready_after_sum_not_max :
    ZF.Join.drive (countdownStep 10) (countdownStep 20) 3
        ({ left := .future 2, right := .future 2 } : ZF.Join Nat Nat Nat Nat)
      = some ({ left := .taken, right := .taken }, [none, none, some (10, 20)]) := by decide

/-- C6: once `Join::poll` has reported `Ready` with the pair, both
sides are in the `Taken` state, and any further poll of the same
instance hits the `unreachable!()` arm of `MaybeDone::poll` — a panic
(modelled as `none`), never a silent stale or default result. -/
theorem join_poll_after_ready_panics {σL σR α β : Type}
    (stepL : σL → σL ⊕ α) (stepR : σR → σR ⊕ β)
    (j j' : ZF.Join σL σR α β) (p : α × β)
    (h : ZF.Join.poll stepL stepR j = some (j', some p)) :
    ZF.Join.poll stepL stepR j' = none := by
  unfold ZF.Join.poll at h
  split at h
  · exact absurd h (by simp)
  next l1 lready heq =>
    split at h
    · exact absurd h (by simp)
    next hlready =>
      split at h
      · exact absurd h (by simp)
      next r1 rready heq2 =>
        split at h
        · exact absurd h (by simp)
        next hrready =>
          split at h
          next lv l2 rv r2 heq3 heq4 =>
            have hl2 : l2 = ZF.MaybeDone.taken := take_output_some_eq_taken heq3
            have hj : j' = { left := l2, right := r2 } := by
              have h2 := Option.some.inj h
              exact (congrArg Prod.fst h2).symm
            subst hl2
            rw [hj]
            rfl
          next => exact absurd h (by simp)

/-- Closed witness for the C6 theorem at a concrete instance: a join of
two one-poll futures reports ready on the first poll, and polling the
resulting instance again panics. -/
theorem join_poll_after_ready_panics_witness :
    ZF.Join.poll (countdownStep 10) (countdownStep 20)
        ({ left := .taken, right := .taken } : ZF.Join Nat Nat Nat Nat) = none :=
  join_poll_after_ready_panics (countdownStep 10) (countdownStep 20)
    { left := .future 1, right := .future 1 } { left := .taken, right := .taken }
    (10, 20) (by decide)

theorem join_poll_equiv {σL σR α β : Type} (stepL : σL → σL ⊕ α) (stepR : σR → σR ⊕ β)
    (j : JoinRs.JoinedPair σL σR α β) :
    ZF.Join.poll stepL stepR (jpToZF j) =
      Option.map (fun p => (jpToZF p.1, p.2)) (JoinRs.JoinedPair.poll stepL stepR j) := by
  obtain ⟨l, r⟩ := j
  cases l with
  | taken => rfl
  | future f =>
      cases hsf : stepL f with
      | inl f2 =>
          simp [ZF.Join.poll, JoinRs.JoinedPair.poll, ZF.MaybeDone.poll,
            JoinRs.MaybeDone.poll, jpToZF, mdToZF, hsf]
      | inr v =>
          cases r with
          | taken =>
              simp [ZF.Join.poll, JoinRs.JoinedPair.poll, ZF.MaybeDone.poll,
                JoinRs.MaybeDone.poll, jpToZF, mdToZF, hsf]
          | future g =>
              cases hsg : stepR g with
              | inl g2 =>
                  simp [ZF.Join.poll, JoinRs.JoinedPair.poll, ZF.MaybeDone.poll,
                    JoinRs.MaybeDone.poll, jpToZF, mdToZF, hsf, hsg]
              | inr w =>
                  simp [ZF.Join.poll, JoinRs.JoinedPair.poll, ZF.MaybeDone.poll,
                    JoinRs.MaybeDone.poll, ZF.MaybeDone.take_output,
                    JoinRs.MaybeDone.take_output, jpToZF, mdToZF, hsf, hsg]
          | done w =>
              simp [ZF.Join.poll, JoinRs.JoinedPair.poll, ZF.MaybeDone.poll,
                JoinRs.MaybeDone.poll, ZF.MaybeDone.take_output,
                JoinRs.MaybeDone.take_output, jpToZF, mdToZF, hsf]
  | done v =>
      cases r with
      | taken =>
          simp [ZF.Join.poll, JoinRs.JoinedPair.poll, ZF.MaybeDone.poll,
            JoinRs.MaybeDone.poll, jpToZF, mdToZF]
      | future g =>
          cases hsg : stepR g with
          | inl g2 =>
              simp [ZF.Join.poll, JoinRs.JoinedPair.poll, ZF.MaybeDone.poll,
                JoinRs.MaybeDone.poll, jpToZF, mdToZF, hsg]
          | inr w =>
              simp [ZF.Join.poll, JoinRs.JoinedPair.poll, ZF.MaybeDone.poll,
                JoinRs.MaybeDone.poll, ZF.MaybeDone.take_output,
                JoinRs.MaybeDone.take_output, jpToZF, mdToZF, hsg]
      | done w =>
          simp [ZF.Join.poll, JoinRs.JoinedPair.poll, ZF.MaybeDone.poll,
            JoinRs.MaybeDone.poll, ZF.MaybeDone.take_output,
            JoinRs.MaybeDone.take_output, jpToZF, mdToZF]

theorem join_drive_equiv {σL σR α β : Type} (stepL : σL → σL ⊕ α) (stepR : σR → σR ⊕ β)
    (n : Nat) (j : JoinRs.JoinedPair σL σR α β) :
    ZF.Join.drive stepL stepR n (jpToZF j) =
      Option.map (fun p => (jpToZF p.1, p.2)) (JoinRs.JoinedPair.drive stepL stepR n j) := by
  induction n generalizing j with
  | zero => rfl
  | succ n ih =>
      unfold ZF.Join.drive JoinRs.JoinedPair.drive
      rw [join_poll_equiv]
      cases JoinRs.JoinedPair.poll stepL stepR j with
      | none => rfl
      | some p =>
          obtain ⟨j1, out⟩ := p
          simp only [Option.map_some']
          rw [ih j1]
          cases JoinRs.JoinedPair.drive stepL stepR n j1 with
          | none => rfl
          | some q => rfl

/-- C10: the two join implementations — `JoinedPair` in `src/join.rs`
and `Join` in `src/zipped_fn.rs` — are behaviorally equivalent: under
the constructor-wise correspondence `jpToZF` between their states,
every single poll step commutes (same panics, same successor per-side
states, same `Pending`/`Ready` output), and driving both for any
number of steps from the same pair of child futures produces
corresponding states and the identical sequence of outputs. -/
theorem joinedpair_and_join_behaviorally_equivalent :
    (∀ (σL σR α β : Type) (stepL : σL → σL ⊕ α) (stepR : σR → σR ⊕ β)
        (j : JoinRs.JoinedPair σL σR α β),
        ZF.Join.poll stepL stepR (jpToZF j) =
          Option.map (fun p => (jpToZF p.1, p.2)) (JoinRs.JoinedPair.poll stepL stepR j)) ∧
    (∀ (σL σR α β : Type) (stepL : σL → σL ⊕ α) (stepR : σR → σR ⊕ β)
        (fL : σL) (fR : σR) (n : Nat),
        ZF.Join.drive stepL stepR n
            { left := .future fL, right := .future fR } =
          Option.map (fun p => (jpToZF p.1, p.2))
            (JoinRs.JoinedPair.drive stepL stepR n (JoinRs.JoinedPair.new fL fR))) :=
  ⟨fun _σL _σR _α _β stepL stepR j => join_poll_equiv stepL stepR j,
   fun _σL _σR _α _β stepL stepR fL fR n =>
     join_drive_equiv stepL stepR n (JoinRs.JoinedPair.new fL fR)⟩

/-- C8: in the parallel variant, every failure is a `ParError`
(could-not-start or child-aborted) tagged with the side that produced
it (`false` = left, `true` = right): a left spawn failure is reported
as `(false, SpawnThreadError)`; a right spawn failure — with the left
side already launched — as `(true, SpawnThreadError)`; a left abort as
`(false, JoinThreadError)` whatever the right side did; a right abort
as `(true, JoinThreadError)` with the left side's successful value
discarded; and on every path, error or not, each spawned thread is
joined before the scope returns (spawn and join event counts agree per
side), so no thread is leaked. -/
theorem par_error_tagged_first_fail_no_leak :
    ∀ (εS εJ α β : Type) (sL sR : Except εS Unit) (jL : Except εJ α) (jR : Except εJ β),
      (∀ e : εS, (ZippedFnPar.call_once_flow (Except.error e : Except εS Unit) sR jL jR).1
          = Except.error (false, ParError.SpawnThreadError e))
      ∧ (∀ e : εS, (ZippedFnPar.call_once_flow (Except.ok () : Except εS Unit)
            (Except.error e) jL jR).1
          = Except.error (true, ParError.SpawnThreadError e))
      ∧ (∀ e : εJ, (ZippedFnPar.call_once_flow (Except.ok () : Except εS Unit)
            (Except.ok ()) (Except.error e : Except εJ α) jR).1
          = Except.error (false, ParError.JoinThreadError e))
      ∧ (∀ (e : εJ) (lv : α),
          (ZippedFnPar.call_once_flow (Except.ok () : Except εS Unit) (Except.ok ())
              (Except.ok lv) (Except.error e : Except εJ β)).1
          = Except.error (true, ParError.JoinThreadError e))
      ∧ (∀ (lv : α) (rv : β),
          (ZippedFnPar.call_once_flow (Except.ok () : Except εS Unit) (Except.ok ())
              (Except.ok lv : Except εJ α) (Except.ok rv)).1
          = Except.ok (lv, rv))
      ∧ ((ZippedFnPar.call_once_flow sL sR jL jR).2.count ThreadEvent.spawnedLeft
          = (ZippedFnPar.call_once_flow sL sR jL jR).2.count ThreadEvent.joinedLeft
        ∧ (ZippedFnPar.call_once_flow sL sR jL jR).2.count ThreadEvent.spawnedRight
          = (ZippedFnPar.call_once_flow sL sR jL jR).2.count ThreadEvent.joinedRight) := by
  intro εS εJ α β sL sR jL jR
  refine ⟨fun e => rfl, fun e => rfl, fun e => rfl, fun e lv => rfl, fun lv rv => rfl, ?_⟩
  cases sL with
  | error e => exact ⟨rfl, rfl⟩
  | ok u =>
      cases sR with
      | error e => exact ⟨rfl, rfl⟩
      | ok u2 =>
          cases jL with
          | error e => exact ⟨rfl, rfl⟩
          | ok lv =>
              cases jR with
              | error e => exact ⟨rfl, rfl⟩
              | ok rv => exact ⟨rfl, rfl⟩

theorem join_poll_rank_budget {σL σR α β : Type}
    {stepL : σL → σL ⊕ α} {stepR : σR → σR ⊕ β}
    {j j1 : ZF.Join σL σR α β} {out : Option (α × β)}
    (h : ZF.Join.poll stepL stepR j = some (j1, out)) :
    j.left.rank ≤ j1.left.rank ∧ j.right.rank ≤ j1.right.rank ∧
    Obs.leftCount (Obs.polled out) + leftBudget j1 ≤ leftBudget j ∧
    Obs.rightCount (Obs.polled out) + rightBudget j1 ≤ rightBudget j := by
  obtain ⟨l, r⟩ := j
  cases l with
  | taken => simp [ZF.Join.poll, ZF.MaybeDone.poll] at h
  | future f =>
      cases hsf : stepL f with
      | inl f2 =>
          simp [ZF.Join.poll, ZF.MaybeDone.poll, hsf] at h
          obtain ⟨h1, h2⟩ := h
          subst h1; subst h2
          refine ⟨?_, ?_, ?_, ?_⟩ <;>
            simp [ZF.MaybeDone.rank, leftBudget, rightBudget, Obs.leftCount,
              Obs.rightCount]
      | inr v =>
          cases r with
          | taken =>
              simp [ZF.Join.poll, ZF.MaybeDone.poll, hsf] at h
          | future g =>
              cases hsg : stepR g with
              | inl g2 =>
                  simp [ZF.Join.poll, ZF.MaybeDone.poll, hsf, hsg] at h
                  obtain ⟨h1, h2⟩ := h
                  subst h1; subst h2
                  refine ⟨?_, ?_, ?_, ?_⟩ <;>
                    simp [ZF.MaybeDone.rank, leftBudget, rightBudget, Obs.leftCount,
                      Obs.rightCount]
              | inr w =>
                  simp [ZF.Join.poll, ZF.MaybeDone.poll, ZF.MaybeDone.take_output,
                    hsf, hsg] at h
                  obtain ⟨h1, h2⟩ := h
                  subst h1; subst h2
                  refine ⟨?_, ?_, ?_, ?_⟩ <;>
                    simp [ZF.MaybeDone.rank, leftBudget, rightBudget, Obs.leftCount,
                      Obs.rightCount]
          | done w =>
              simp [ZF.Join.poll, ZF.MaybeDone.poll, ZF.MaybeDone.take_output, hsf] at h
              obtain ⟨h1, h2⟩ := h
              subst h1; subst h2
              refine ⟨?_, ?_, ?_, ?_⟩ <;>
                simp [ZF.MaybeDone.rank, leftBudget, rightBudget, Obs.leftCount,
                  Obs.rightCount]
  | done v =>
      cases r with
      | taken =>
          simp [ZF.Join.poll, ZF.MaybeDone.poll] at h
      | future g =>
          cases hsg : stepR g with
          | inl g2 =>
              simp [ZF.Join.poll, ZF.MaybeDone.poll, hsg] at h
              obtain ⟨h1, h2⟩ := h
              subst h1; subst h2
              refine ⟨?_, ?_, ?_, ?_⟩ <;>
                simp [ZF.MaybeDone.rank, leftBudget, rightBudget, Obs.leftCount,
                  Obs.rightCount]
          | inr w =>
              simp [ZF.Join.poll, ZF.MaybeDone.poll, ZF.MaybeDone.take_output, hsg] at h
              obtain ⟨h1, h2⟩ := h
              subst h1; subst h2
              refine ⟨?_, ?_, ?_, ?_⟩ <;>
                simp [ZF.MaybeDone.rank, leftBudget, rightBudget, Obs.leftCount,
                  Obs.rightCount]
      | done w =>
          simp [ZF.Join.poll, ZF.MaybeDone.poll, ZF.MaybeDone.take_output] at h
          obtain ⟨h1, h2⟩ := h
          subst h1; subst h2
          refine ⟨?_, ?_, ?_, ?_⟩ <;>
            simp [ZF.MaybeDone.rank, leftBudget, rightBudget, Obs.leftCount,
              Obs.rightCount]

theorem runOp_rank_budget {σL σR α β : Type}
    {stepL : σL → σL ⊕ α} {stepR : σR → σR ⊕ β}
    {op : JoinOp} {j j1 : ZF.Join σL σR α β} {o : Obs α β}
    (h : runOp stepL stepR op j = some (j1, o)) :
    j.left.rank ≤ j1.left.rank ∧ j.right.rank ≤ j1.right.rank ∧
    Obs.leftCount o + leftBudget j1 ≤ leftBudget j ∧
    Obs.rightCount o + rightBudget j1 ≤ rightBudget j := by
  cases op with
  | pollStep =>
      simp only [runOp, Option.map_eq_some'] at h
      obtain ⟨⟨j2, out⟩, hp, he⟩ := h
      simp only [Prod.mk.injEq] at he
      obtain ⟨h1, h2⟩ := he
      subst h1; subst h2
      exact join_poll_rank_budget hp
  | takeLeft =>
      obtain ⟨l, r⟩ := j
      simp only [runOp, Option.some.injEq, Prod.mk.injEq] at h
      obtain ⟨h1, h2⟩ := h
      subst h1; subst h2
      cases l <;>
        simp [ZF.MaybeDone.take_output, ZF.MaybeDone.rank, leftBudget, rightBudget,
          Obs.leftCount, Obs.rightCount]
  | takeRight =>
      obtain ⟨l, r⟩ := j
      simp only [runOp, Option.some.injEq, Prod.mk.injEq] at h
      obtain ⟨h1, h2⟩ := h
      subst h1; subst h2
      cases r <;>
        simp [ZF.MaybeDone.take_output, ZF.MaybeDone.rank, leftBudget, rightBudget,
          Obs.leftCount, Obs.rightCount]

theorem runOps_rank_budget {σL σR α β : Type}
    {stepL : σL → σL ⊕ α} {stepR : σR → σR ⊕ β} :
    ∀ {ops : List JoinOp} {j j1 : ZF.Join σL σR α β} {os : List (Obs α β)},
      runOps stepL stepR ops j = some (j1, os) →
      j.left.rank ≤ j1.left.rank ∧ j.right.rank ≤ j1.right.rank ∧
      obsLeftCount os + leftBudget j1 ≤ leftBudget j ∧
      obsRightCount os + rightBudget j1 ≤ rightBudget j := by
  intro ops
  induction ops with
  | nil =>
      intro j j1 os h
      simp only [runOps, Option.some.injEq, Prod.mk.injEq] at h
      obtain ⟨h1, h2⟩ := h
      subst h1; subst h2
      simp [obsLeftCount, obsRightCount]
  | cons op ops ih =>
      intro j j1 os h
      unfold runOps at h
      split at h
      · exact absurd h (by simp)
      next j2 o hop =>
        split at h
        · exact absurd h (by simp)
        next j3 os2 hrest =>
          simp only [Option.some.injEq, Prod.mk.injEq] at h
          obtain ⟨h1, h2⟩ := h
          subst h1; subst h2
          obtain ⟨a1, a2, a3, a4⟩ := runOp_rank_budget hop
          obtain ⟨b1, b2, b3, b4⟩ := ih hrest
          have hcl : obsLeftCount (o :: os2) = Obs.leftCount o + obsLeftCount os2 := by
            simp [obsLeftCount]
          have hcr : obsRightCount (o :: os2) = Obs.rightCount o + obsRightCount os2 := by
            simp [obsRightCount]
          exact ⟨le_trans a1 b1, le_trans a2 b2, by omega, by omega⟩

theorem polled_mem_le_counts {α β : Type} {os : List (Obs α β)} {p : α × β}
    (h : Obs.polled (some p) ∈ os) :
    1 ≤ obsLeftCount os ∧ 1 ≤ obsRightCount os := by
  induction os with
  | nil => cases h
  | cons o os ih =>
      rcases List.mem_cons.mp h with h1 | h2
      · subst h1
        constructor <;>
          · simp only [obsLeftCount, obsRightCount, List.map_cons, List.sum_cons,
              Obs.leftCount, Obs.rightCount]
            omega
      · obtain ⟨i1, i2⟩ := ih h2
        simp only [obsLeftCount, obsRightCount, List.map_cons, List.sum_cons] at *
        omega

/-- C5: along every sequence of poll and `take_output` operations on a
join instance, each side's state only moves forward through the order
`Future` (rank 0), `Done` (rank 1), `Taken` (rank 2) — the ranks never
regress — and each side's value is observed at most `leftBudget` /
`rightBudget` many times (`1` from any state that is not yet `Taken`),
so no side is ever collected twice; moreover if the run contains a
poll that reported the ready pair, that pair (and each side's value)
was observed exactly once in the run. -/
theorem join_sides_monotone_collected_once :
    ∀ (σL σR α β : Type) (stepL : σL → σL ⊕ α) (stepR : σR → σR ⊕ β)
      (ops : List JoinOp) (j j1 : ZF.Join σL σR α β) (os : List (Obs α β)),
      runOps stepL stepR ops j = some (j1, os) →
      (j.left.rank ≤ j1.left.rank ∧ j.right.rank ≤ j1.right.rank) ∧
      (obsLeftCount os + leftBudget j1 ≤ leftBudget j ∧
       obsRightCount os + rightBudget j1 ≤ rightBudget j) ∧
      (obsLeftCount os ≤ 1 ∧ obsRightCount os ≤ 1) ∧
      (∀ p : α × β, Obs.polled (some p) ∈ os →
        obsLeftCount os = 1 ∧ obsRightCount os = 1) := by
  intro σL σR α β stepL stepR ops j j1 os h
  obtain ⟨m1, m2, m3, m4⟩ := runOps_rank_budget h
  have hlb : leftBudget j ≤ 1 := by unfold leftBudget; split <;> omega
  have hrb : rightBudget j ≤ 1 := by unfold rightBudget; split <;> omega
  refine ⟨⟨m1, m2⟩, ⟨m3, m4⟩, ⟨by omega, by omega⟩, ?_⟩
  intro p hp
  obtain ⟨t1, t2⟩ := polled_mem_le_counts hp
  constructor <;> omega

/-- Closed witness for the C5 theorem: a fresh join of two one-poll
futures, subjected to a single poll, observes the ready pair exactly
once, with both sides moving `Future → Taken`. -/
theorem join_sides_monotone_collected_once_witness :
    ((({ left := .future 1, right := .future 1 } : ZF.Join Nat Nat Nat Nat).left.rank ≤
        (({ left := .taken, right := .taken } : ZF.Join Nat Nat Nat Nat)).left.rank ∧
      (({ left := .future 1, right := .future 1 } : ZF.Join Nat Nat Nat Nat)).right.rank ≤
        (({ left := .taken, right := .taken } : ZF.Join Nat Nat Nat Nat)).right.rank) ∧
     (obsLeftCount [Obs.polled (some (10, 20))] +
          leftBudget ({ left := .taken, right := .taken } : ZF.Join Nat Nat Nat Nat) ≤
        leftBudget ({ left := .future 1, right := .future 1 } : ZF.Join Nat Nat Nat Nat) ∧
      obsRightCount [Obs.polled (some (10, 20))] +
          rightBudget ({ left := .taken, right := .taken } : ZF.Join Nat Nat Nat Nat) ≤
        rightBudget ({ left := .future 1, right := .future 1 } : ZF.Join Nat Nat Nat Nat)) ∧
     (obsLeftCount [Obs.polled (some (10, 20))] ≤ 1 ∧
      obsRightCount [Obs.polled (some (10, 20))] ≤ 1) ∧
     (∀ p : Nat × Nat, Obs.polled (some p) ∈ [Obs.polled (some (10, 20))] →
        obsLeftCount [Obs.polled (some (10, 20))] = 1 ∧
        obsRightCount [Obs.polled (some (10, 20))] = 1)) :=
  join_sides_monotone_collected_once Nat Nat Nat Nat
    (countdownStep 10) (countdownStep 20) [JoinOp.pollStep]
    { left := .future 1, right := .future 1 } { left := .taken, right := .taken }
    [Obs.polled (some (10, 20))] (by decide)

/-- C9: the repeatable invocation forms of `ZippedFnPar` (`call_mut`
and `call`) read the `thread_names` and `thread_stack_sizes` options
through `each_ref` and clone them, leaving both configuration fields
unchanged after the call, while configuring the builders with exactly
the same values as the consume-once form; `call_once` instead
`Option::take`s the options out of their slots, leaving both slots
`None`, before using them. -/
theorem par_config_cloned_not_consumed :
    ∀ (Z Nm : Type) (z : ZippedFnPar Z Nm),
      ((z.builders_mut).2.thread_names = z.thread_names
        ∧ (z.builders_mut).2.thread_stack_sizes = z.thread_stack_sizes
        ∧ (z.builders_mut).2 = z)
      ∧ ((z.builders_call).2.thread_names = z.thread_names
        ∧ (z.builders_call).2.thread_stack_sizes = z.thread_stack_sizes
        ∧ (z.builders_call).2 = z)
      ∧ ((z.builders_once).2.thread_names = (none, none)
        ∧ (z.builders_once).2.thread_stack_sizes = (none, none))
      ∧ (z.builders_mut).1 = (z.builders_once).1
      ∧ (z.builders_call).1 = (z.builders_once).1 :=
  fun _Z _Nm _z =>
    ⟨⟨rfl, rfl, rfl⟩, ⟨rfl, rfl, rfl⟩, ⟨rfl, rfl⟩, rfl, rfl⟩

end FnZip
